import Mathlib

/-!
Shallow embedding of the batch-transfer Soroban contract
(`src/contracts/batch-transfer/src/lib.rs`) and proofs about its
specification.

Modelling conventions:
* `Address` is an abstract account identifier, embedded as `Nat`.
* Amounts are `i128` in the source; the contract itself performs no
  arithmetic on them (only comparisons), so they are embedded as `Int`.
* The host platform's instance storage holds a single key (`DataKey::Admin`);
  it is embedded as an `Option Address` field of the world state.
* The host's `require_auth` is embedded as a predicate `auth : Address → Bool`
  saying which accounts have cryptographically authorized this invocation
  (the spec's `Authorizer` interface, §9).
* The external token contract (the transfer capability) is not part of the
  repository; it is modelled from the spec's collaborator interface (§6):
  `transfer(from, to, amount)` fails the enclosing invocation on insufficient
  balance, otherwise moves `amount` between the two balances.
* Rust `panic!`/`expect` aborts the invocation and the host rolls back every
  effect; this is embedded as `Except Err` results, where an `error` result
  leaves the pre-call world in force (function `exec`).
* Error names follow the spec's taxonomy (§7); `AlreadyInit` and `NotInit`
  stand for the spec's `AlreadyInitialized` and `NotInitialized`.
* The source's `initialize` entry point is embedded under the name
  `init_contract` (the source name is unavailable as a Lean identifier here).
* Each entry point additionally reports the list of external interactions it
  performed (`Event`): authorization requests and transfer-capability calls,
  in order. This makes claims about authorization counts and transfer order
  statable.
-/

/-- Account identifiers (Soroban `Address`), abstract; embedded as `Nat`. -/
abbrev Address := Nat

/-- Error taxonomy of the contract (spec §7).  `AlreadyInit`/`NotInit` are the
spec's `AlreadyInitialized`/`NotInitialized`; the Rust code raises them as
panics (`"already initialized"`, `"not initialized"`, `"no recipients
provided"`, `"recipients and amounts length mismatch"`, `"amount must be
positive"`), plus host-reported authorization failure and transfer failure. -/
inductive Err where
  | AlreadyInit
  | NotInit
  | EmptyBatch
  | LengthMismatch
  | NonPositiveAmount
  | AuthFailure
  | TransferFailure
deriving DecidableEq, Repr

/-- External interactions of one invocation, in order: an authorization
request for an address (`require_auth`), or a call of the transfer
capability `transfer(from, to, amount)`. -/
inductive Event where
  | authReq : Address → Event
  | transferCall : Address → Address → Int → Event
deriving DecidableEq, Repr

/-- The world state: the contract's single storage slot (`DataKey::Admin`),
the token ledger of the one asset being batch-transferred (external, held by
the token contract), the installed code hash, the instance storage TTL and
the host's maximum TTL. -/
structure World where
  admin : Option Address
  balances : Address → Int
  wasm : Nat
  ttl : Nat
  maxTtl : Nat

/-- The balance update performed by one successful token transfer:
`to` gains `amt`, `from` loses `amt` (a self-transfer nets to zero). -/
def applyTransfer (bal : Address → Int) (f t : Address) (amt : Int) :
    Address → Int :=
  fun a => bal a + (if a = t then amt else 0) - (if a = f then amt else 0)

/-- Modelled from the spec: the external transfer capability (§6), which is
not part of this repository.  `transfer(from, to, amount)` fails the
enclosing invocation on insufficient balance and otherwise moves `amount`
from `from` to `to`. -/
def transfer (bal : Address → Int) (f t : Address) (amt : Int) :
    Except Err (Address → Int) :=
  if bal f < amt then .error .TransferFailure
  else .ok (applyTransfer bal f t amt)

/-- The body of the `for i in 0..count` loop of `batch_transfer`
(src lines 66–75), on the positionally-paired list of recipients and
amounts: check `amount <= 0` (panic `NonPositiveAmount`), then invoke the
transfer capability, recording each capability call as an event. -/
def batchLoop (frm : Address) :
    (Address → Int) → List (Address × Int) →
    Except Err (Address → Int) × List Event
  | bal, [] => (.ok bal, [])
  | bal, (r, amt) :: rest =>
    if amt ≤ 0 then (.error .NonPositiveAmount, [])
    else
      match transfer bal frm r amt with
      | .error e => (.error e, [.transferCall frm r amt])
      | .ok bal2 =>
        let out := batchLoop frm bal2 rest
        (out.1, .transferCall frm r amt :: out.2)

/-- `batch_transfer(env, token, from, recipients, amounts)` (src lines
43–76): reject an empty batch, then a length mismatch, then require the
single authorization of `from`, then run the transfer loop.  Returns the
invocation result together with the ordered external interactions.  The
source loops over indices `0..recipients.len()` reading
`recipients.get(i)`/`amounts.get(i)`; after the length guard this is the
positional pairing `recipients.zip amounts`.  `tok` selects the asset whose
ledger `w.balances` models. -/
def batch_transfer (auth : Address → Bool) (w : World) (tok frm : Address)
    (recipients : List Address) (amounts : List Int) :
    Except Err World × List Event :=
  if recipients.length = 0 then (.error .EmptyBatch, [])
  else if recipients.length ≠ amounts.length then (.error .LengthMismatch, [])
  else if auth frm then
    let out := batchLoop frm w.balances (recipients.zip amounts)
    (out.1.map (fun b => { w with balances := b }), .authReq frm :: out.2)
  else (.error .AuthFailure, [.authReq frm])

/-- The source's `initialize(env, admin)` entry point (src lines 25–30):
panics `AlreadyInit` if the `Admin` key is present, otherwise stores the
given address.  No authorization is required. -/
def init_contract (w : World) (a : Address) : Except Err World :=
  match w.admin with
  | some _ => .error .AlreadyInit
  | none => .ok { w with admin := some a }

/-- `admin(env)` (src lines 79–84): read the stored administrator record,
panicking `NotInit` when absent.  Read-only. -/
def admin (w : World) : Except Err Address :=
  match w.admin with
  | some a => .ok a
  | none => .error .NotInit

/-- `set_admin(env, new_admin)` (src lines 87–96): read the stored admin
(panic `NotInit` when absent), require its authorization, then overwrite the
record with `new_admin`. -/
def set_admin (auth : Address → Bool) (w : World) (new_admin : Address) :
    Except Err World :=
  match w.admin with
  | none => .error .NotInit
  | some a =>
    if auth a then .ok { w with admin := some new_admin }
    else .error .AuthFailure

/-- `upgrade(env, new_wasm_hash)` (src lines 102–111): read the stored admin
(panic `NotInit` when absent), require its authorization, then instruct the
host to replace the current code. -/
def upgrade (auth : Address → Bool) (w : World) (new_wasm_hash : Nat) :
    Except Err World :=
  match w.admin with
  | none => .error .NotInit
  | some a =>
    if auth a then .ok { w with wasm := new_wasm_hash }
    else .error .AuthFailure

/-- `extend_ttl(env)` (src lines 115–118): extend the instance storage TTL
to the host maximum (`extend_ttl(max_ttl, max_ttl)` sets the live-until
counter to the maximum).  No authorization, never fails. -/
def extend_ttl (w : World) : World :=
  { w with ttl := w.maxTtl }

/-- The contract's public surface as one step relation: each constructor is
one entry point with its arguments. -/
inductive Op where
  | opInit (a : Address)
  | opBatch (tok frm : Address) (recipients : List Address)
      (amounts : List Int)
  | opAdmin
  | opSetAdmin (new_admin : Address)
  | opUpgrade (new_wasm_hash : Nat)
  | opExtendTtl

/-- One invocation of an entry point: the resulting world on success, the
error on an aborted invocation.  `opAdmin` is read-only. -/
def step (auth : Address → Bool) (w : World) : Op → Except Err World
  | .opInit a => init_contract w a
  | .opBatch tok frm rs amts => (batch_transfer auth w tok frm rs amts).1
  | .opAdmin => (admin w).map (fun _ => w)
  | .opSetAdmin n => set_admin auth w n
  | .opUpgrade h => upgrade auth w h
  | .opExtendTtl => .ok (extend_ttl w)

/-- The world after an invocation, with the host's atomic rollback: an
aborted invocation leaves the world unchanged. -/
def exec (auth : Address → Bool) (w : World) (op : Op) : World :=
  match step auth w op with
  | .ok w2 => w2
  | .error _ => w

/-- The world after a sequence of invocations (each rolled back on abort). -/
def execList (auth : Address → Bool) (w : World) (ops : List Op) : World :=
  ops.foldl (exec auth) w

/-- Sum of the amounts a given address receives in a paired
recipient/amount list (the positional pairing of a batch). -/
def recvSum (l : List (Address × Int)) (a : Address) : Int :=
  ((l.filter (fun p => p.1 = a)).map Prod.snd).sum

/-- Whether an event is an authorization request. -/
def isAuth : Event → Bool
  | .authReq _ => true
  | .transferCall _ _ _ => false

/-- Whether an `Except` result is a success. -/
def resOk : Except Err α → Bool
  | .ok _ => true
  | .error _ => false

/-- An authorizer granting every request (every account has signed). -/
def authAll : Address → Bool := fun _ => true

/-- An authorizer denying every request (nobody has signed). -/
def authNone : Address → Bool := fun _ => false

/-- A concrete ledger: account 0 holds 100, everyone else holds 0. -/
def bal0 : Address → Int := fun a => if a = 0 then 100 else 0

/-- A concrete uninitialized world over the ledger `bal0`. -/
def w0 : World :=
  { admin := none, balances := bal0, wasm := 0, ttl := 0, maxTtl := 100 }

/-- A concrete world whose administrator record holds account 1. -/
def wA : World :=
  { admin := some 1, balances := bal0, wasm := 0, ttl := 0, maxTtl := 100 }

/-- A concrete uninitialized world where every account holds only 5. -/
def w5 : World :=
  { admin := none, balances := fun _ => 5, wasm := 0, ttl := 0, maxTtl := 100 }

lemma resOk_ok (a : α) : resOk (Except.ok a : Except Err α) = true := rfl

lemma resOk_error (e : Err) : resOk (Except.error e : Except Err α) = false := rfl

lemma exec_of_step_error (auth : Address → Bool) (w : World) (op : Op)
    (e : Err) (h : step auth w op = .error e) : exec auth w op = w := by
  simp [exec, h]

lemma recvSum_nil (a : Address) : recvSum [] a = 0 := rfl

lemma recvSum_cons (r : Address) (amt : Int) (l : List (Address × Int))
    (a : Address) :
    recvSum ((r, amt) :: l) a = (if a = r then amt else 0) + recvSum l a := by
  by_cases h : r = a
  · subst h
    simp [recvSum, List.filter_cons]
  · have h' : ¬(a = r) := fun hh => h hh.symm
    simp [recvSum, List.filter_cons, h, h']

lemma recvSum_not_mem (l : List (Address × Int)) (a : Address)
    (h : a ∉ l.map Prod.fst) : recvSum l a = 0 := by
  induction l with
  | nil => rfl
  | cons p rest ih =>
    obtain ⟨r, amt⟩ := p
    simp only [List.map_cons, List.mem_cons, not_or] at h
    rw [recvSum_cons, if_neg h.1, ih h.2]
    simp

lemma batchLoop_cons (frm : Address) (bal : Address → Int) (r : Address)
    (amt : Int) (rest : List (Address × Int)) :
    batchLoop frm bal ((r, amt) :: rest) =
      if amt ≤ 0 then (.error .NonPositiveAmount, [])
      else
        match transfer bal frm r amt with
        | .error e => (.error e, [.transferCall frm r amt])
        | .ok bal2 =>
          ((batchLoop frm bal2 rest).1,
            .transferCall frm r amt :: (batchLoop frm bal2 rest).2) := by
  simp [batchLoop]

lemma transfer_ok (bal : Address → Int) (f t : Address) (amt : Int)
    (bal2 : Address → Int) (h : transfer bal f t amt = .ok bal2) :
    bal2 = applyTransfer bal f t amt ∧ ¬ bal f < amt := by
  unfold transfer at h
  split at h
  · exact absurd h (by simp)
  · exact ⟨(Except.ok.injEq _ _ ▸ h).symm, by assumption⟩

/-- Balance bookkeeping of a successful transfer loop: every address ends at
its starting balance, plus everything it received in the batch, minus (for
the source) the total of all amounts. -/
lemma batchLoop_ok_balances (frm : Address) :
    ∀ (l : List (Address × Int)) (bal b : Address → Int) (evs : List Event),
    batchLoop frm bal l = (.ok b, evs) →
    ∀ a, b a = bal a + recvSum l a -
      (if a = frm then (l.map Prod.snd).sum else 0) := by
  intro l
  induction l with
  | nil =>
    intro bal b evs h a
    simp only [batchLoop, Prod.mk.injEq, Except.ok.injEq] at h
    simp [← h.1, recvSum_nil]
  | cons p rest ih =>
    obtain ⟨r, amt⟩ := p
    intro bal b evs h a
    rw [batchLoop_cons] at h
    split at h
    · exact absurd h (by simp)
    · cases htr : transfer bal frm r amt with
      | error e => rw [htr] at h; exact absurd h (by simp)
      | ok bal2 =>
        rw [htr] at h
        simp only [Prod.mk.injEq] at h
        cases hrec : batchLoop frm bal2 rest with
        | mk res evs2 =>
          rw [hrec] at h
          have hres : res = .ok b := h.1
          have hb := ih bal2 b evs2 (by rw [hrec, hres])
          obtain ⟨hbal2, _⟩ := transfer_ok bal frm r amt bal2 htr
          have hba := hb a
          rw [hbal2] at hba
          rw [hba, recvSum_cons]
          simp only [applyTransfer, List.map_cons, List.sum_cons]
          split_ifs <;> ring

/-- A successful transfer loop emits exactly one transfer-capability call per
batch position, in positional order. -/
lemma batchLoop_ok_events (frm : Address) :
    ∀ (l : List (Address × Int)) (bal b : Address → Int) (evs : List Event),
    batchLoop frm bal l = (.ok b, evs) →
    evs = l.map (fun p => .transferCall frm p.1 p.2) := by
  intro l
  induction l with
  | nil =>
    intro bal b evs h
    simp only [batchLoop, Prod.mk.injEq] at h
    simp [← h.2]
  | cons p rest ih =>
    obtain ⟨r, amt⟩ := p
    intro bal b evs h
    rw [batchLoop_cons] at h
    split at h
    · exact absurd h (by simp)
    · cases htr : transfer bal frm r amt with
      | error e => rw [htr] at h; exact absurd h (by simp)
      | ok bal2 =>
        rw [htr] at h
        simp only [Prod.mk.injEq] at h
        cases hrec : batchLoop frm bal2 rest with
        | mk res evs2 =>
          rw [hrec] at h
          have hres : res = .ok b := h.1
          rw [← h.2, List.map_cons]
          have := ih bal2 b evs2 (by rw [hrec, hres])
          rw [this]

/-- The transfer loop never requests an authorization: every event it emits
is a transfer-capability call. -/
lemma batchLoop_no_auth (frm : Address) :
    ∀ (l : List (Address × Int)) (bal : Address → Int),
    ∀ e ∈ (batchLoop frm bal l).2, isAuth e = false := by
  intro l
  induction l with
  | nil =>
    intro bal e he
    simp [batchLoop] at he
  | cons p rest ih =>
    obtain ⟨r, amt⟩ := p
    intro bal e he
    rw [batchLoop_cons] at he
    split at he
    · simp at he
    · cases htr : transfer bal frm r amt with
      | error err =>
        rw [htr] at he
        simp only [List.mem_singleton] at he
        rw [he]
        rfl
      | ok bal2 =>
        rw [htr] at he
        simp only [List.mem_cons] at he
        rcases he with he | he
        · rw [he]; rfl
        · exact ih bal2 e he

/-- If some batch position carries a non-positive amount, the transfer loop
cannot succeed (it aborts there, or earlier at a failing transfer). -/
lemma batchLoop_not_ok_of_nonpos (frm : Address) :
    ∀ (l : List (Address × Int)) (bal : Address → Int),
    (∃ p ∈ l, p.2 ≤ 0) → resOk (batchLoop frm bal l).1 = false := by
  intro l
  induction l with
  | nil =>
    intro bal h
    obtain ⟨p, hp, _⟩ := h
    simp at hp
  | cons q rest ih =>
    obtain ⟨r, amt⟩ := q
    intro bal h
    obtain ⟨p, hp, hneg⟩ := h
    rw [batchLoop_cons]
    by_cases hamt : amt ≤ 0
    · rw [if_pos hamt]
      rfl
    · rw [if_neg hamt]
      cases htr : transfer bal frm r amt with
      | error e => rfl
      | ok bal2 =>
        apply ih bal2
        refine ⟨p, ?_, hneg⟩
        rcases List.mem_cons.mp hp with h1 | h1
        · exfalso
          rw [h1] at hneg
          exact hamt hneg
        · exact h1

/-- Running the transfer loop on an appended list: after a successful first
half, the loop continues on the second half from the reached balances, and
the event lists concatenate. -/
lemma batchLoop_append (frm : Address) :
    ∀ (l₁ l₂ : List (Address × Int)) (bal b : Address → Int)
      (evs : List Event),
    batchLoop frm bal l₁ = (.ok b, evs) →
    batchLoop frm bal (l₁ ++ l₂) =
      ((batchLoop frm b l₂).1, evs ++ (batchLoop frm b l₂).2) := by
  intro l₁
  induction l₁ with
  | nil =>
    intro l₂ bal b evs h
    simp only [batchLoop, Prod.mk.injEq, Except.ok.injEq] at h
    rw [List.nil_append, ← h.1, ← h.2, List.nil_append]
  | cons q rest ih =>
    obtain ⟨r, amt⟩ := q
    intro l₂ bal b evs h
    rw [batchLoop_cons] at h
    rw [List.cons_append, batchLoop_cons]
    split at h
    · exact absurd h (by simp)
    · rename_i hamt
      rw [if_neg hamt]
      cases htr : transfer bal frm r amt with
      | error e => rw [htr] at h; exact absurd h (by simp)
      | ok bal2 =>
        rw [htr] at h
        simp only [Prod.mk.injEq] at h
        cases hrec : batchLoop frm bal2 rest with
        | mk res evs2 =>
          rw [hrec] at h
          have hres : res = .ok b := h.1
          have := ih l₂ bal2 b evs2 (by rw [hrec, hres])
          show ((batchLoop frm bal2 (rest ++ l₂)).1,
            Event.transferCall frm r amt :: (batchLoop frm bal2 (rest ++ l₂)).2)
            = ((batchLoop frm b l₂).1, evs ++ (batchLoop frm b l₂).2)
          rw [this, ← h.2]
          simp

/-- After a successful loop prefix, a non-positive amount at the next
position aborts the whole loop with `NonPositiveAmount`. -/
lemma batchLoop_nonpos_after_ok (frm : Address) (bal : Address → Int)
    (l₁ : List (Address × Int)) (r : Address) (a : Int)
    (l₂ : List (Address × Int))
    (hok : resOk (batchLoop frm bal l₁).1 = true) (ha : a ≤ 0) :
    batchLoop frm bal (l₁ ++ (r, a) :: l₂) =
      (.error .NonPositiveAmount, (batchLoop frm bal l₁).2) := by
  cases hres : batchLoop frm bal l₁ with
  | mk res evs =>
    cases res with
    | error e => rw [hres] at hok; exact absurd hok (by simp [resOk])
    | ok b =>
      rw [batchLoop_append frm l₁ ((r, a) :: l₂) bal b evs hres,
        batchLoop_cons, if_pos ha]
      simp [hres]

/-- With no duplicate recipients, the amount received at position `i` of the
batch by recipient `i` is exactly the paired amount. -/
lemma recvSum_zip_nodup :
    ∀ (rs : List Address) (amts : List Int), rs.Nodup →
    rs.length = amts.length →
    ∀ (i : Nat) (hi : i < rs.length) (hj : i < amts.length),
    recvSum (rs.zip amts) (rs.get ⟨i, hi⟩) = amts.get ⟨i, hj⟩ := by
  intro rs
  induction rs with
  | nil =>
    intro amts _ _ i hi
    exact absurd hi (by simp)
  | cons r rs' ih =>
    intro amts hnd hlen i hi hj
    cases amts with
    | nil => exact absurd hlen (by simp)
    | cons a as' =>
      have hnd' := List.nodup_cons.mp hnd
      have hlen' : rs'.length = as'.length := by simpa using hlen
      cases i with
      | zero =>
        simp only [List.zip_cons_cons, List.get]
        rw [recvSum_cons, if_pos rfl]
        have hfst : (rs'.zip as').map Prod.fst = rs' :=
          List.map_fst_zip rs' as' (le_of_eq hlen')
        rw [recvSum_not_mem _ _ (by rw [hfst]; exact hnd'.1)]
        simp
      | succ n =>
        simp only [List.zip_cons_cons, List.get]
        rw [recvSum_cons, if_neg, ih as' hnd'.2 hlen' n (by simpa using hi)
          (by simpa using hj)]
        · simp
        · intro hcontr
          exact hnd'.1 (hcontr ▸ List.get_mem rs' n _)

/-- Unfolding of `batch_transfer` once the emptiness and length checks pass
and the source's authorization is granted. -/
lemma batch_transfer_run (auth : Address → Bool) (w : World)
    (tok frm : Address) (rs : List Address) (amts : List Int)
    (hne : rs.length ≠ 0) (hlen : rs.length = amts.length)
    (hauth : auth frm = true) :
    batch_transfer auth w tok frm rs amts =
      ((batchLoop frm w.balances (rs.zip amts)).1.map
        (fun b => { w with balances := b }),
       .authReq frm :: (batchLoop frm w.balances (rs.zip amts)).2) := by
  unfold batch_transfer
  rw [if_neg hne, if_neg (fun hc => hc hlen), if_pos hauth]

/-- Unfolding of `batch_transfer` when the checks pass but the source's
authorization is denied. -/
lemma batch_transfer_noauth (auth : Address → Bool) (w : World)
    (tok frm : Address) (rs : List Address) (amts : List Int)
    (hne : rs.length ≠ 0) (hlen : rs.length = amts.length)
    (hauth : auth frm = false) :
    batch_transfer auth w tok frm rs amts =
      (.error .AuthFailure, [.authReq frm]) := by
  unfold batch_transfer
  rw [if_neg hne, if_neg (fun hc => hc hlen), if_neg (by simp [hauth])]

/-- C1: For every valid batch (recipients non-empty, recipients and amounts
of equal length, every amount strictly positive) whose authorization by the
source succeeds and whose individual transfers all succeed, `batch_transfer`
invokes the transfer capability once per index `i`, in order from first to
last, moving `amounts[i]` of the asset from the source to `recipients[i]`;
the source balance decreases by the sum of the amounts, each recipient's
balance increases by its paired amount (stated in full generality by the
per-address accounting equation, and in the claim's words for a source
outside the recipient list and for pairwise-distinct recipients), and no
other balance changes. -/
theorem C1_batch_transfer_success_effect
    (auth : Address → Bool) (w : World) (tok frm : Address)
    (rs : List Address) (amts : List Int)
    (hne : rs ≠ []) (hlen : rs.length = amts.length)
    (hpos : ∀ x ∈ amts, 0 < x) (hauth : auth frm = true)
    (hok : resOk (batchLoop frm w.balances (rs.zip amts)).1 = true) :
    ∃ w', (batch_transfer auth w tok frm rs amts).1 = .ok w' ∧
      (batch_transfer auth w tok frm rs amts).2 =
        .authReq frm ::
          (rs.zip amts).map (fun p => Event.transferCall frm p.1 p.2) ∧
      (∀ a, w'.balances a = w.balances a + recvSum (rs.zip amts) a -
        (if a = frm then amts.sum else 0)) ∧
      (frm ∉ rs → w'.balances frm = w.balances frm - amts.sum) ∧
      (∀ a, a ∉ rs → a ≠ frm → w'.balances a = w.balances a) ∧
      (rs.Nodup → ∀ i (hi : i < rs.length) (hj : i < amts.length),
        rs.get ⟨i, hi⟩ ≠ frm →
        w'.balances (rs.get ⟨i, hi⟩) =
          w.balances (rs.get ⟨i, hi⟩) + amts.get ⟨i, hj⟩) ∧
      w'.admin = w.admin := by
  have hne' : rs.length ≠ 0 := fun h0 => hne (List.length_eq_zero.mp h0)
  have hfst : (rs.zip amts).map Prod.fst = rs :=
    List.map_fst_zip rs amts (le_of_eq hlen)
  have hsnd : (rs.zip amts).map Prod.snd = amts :=
    List.map_snd_zip rs amts (le_of_eq hlen.symm)
  cases hres : batchLoop frm w.balances (rs.zip amts) with
  | mk res evs =>
    cases res with
    | error e => rw [hres] at hok; exact absurd hok (by simp [resOk])
    | ok b =>
      have hdelta :=
        batchLoop_ok_balances frm (rs.zip amts) w.balances b evs hres
      refine ⟨{ w with balances := b }, ?_, ?_, ?_, ?_, ?_, ?_, rfl⟩
      · rw [batch_transfer_run auth w tok frm rs amts hne' hlen hauth, hres]
        rfl
      · rw [batch_transfer_run auth w tok frm rs amts hne' hlen hauth, hres,
          batchLoop_ok_events frm (rs.zip amts) w.balances b evs hres]
      · intro a
        have h3 := hdelta a
        rw [hsnd] at h3
        exact h3
      · intro hmem
        have h4 := hdelta frm
        rw [if_pos rfl, hsnd,
          recvSum_not_mem _ _ (by rw [hfst]; exact hmem)] at h4
        simpa using h4
      · intro a ha hafrm
        have h5 := hdelta a
        rw [if_neg hafrm,
          recvSum_not_mem _ _ (by rw [hfst]; exact ha)] at h5
        simpa using h5
      · intro hnd i hi hj hne2
        have h6 := hdelta (rs.get ⟨i, hi⟩)
        rw [if_neg hne2,
          recvSum_zip_nodup rs amts hnd hlen i hi hj] at h6
        simpa using h6

/-- Witness for C1 at the spec's example: account 0 batch-transfers 10 to
account 1 and 20 to account 2 out of a balance of 100. -/
theorem C1_batch_transfer_success_effect_witness :
    ∃ w', (batch_transfer authAll w0 7 0 [1, 2] [10, 20]).1 = .ok w' ∧
      (batch_transfer authAll w0 7 0 [1, 2] [10, 20]).2 =
        .authReq 0 :: (([1, 2] : List Address).zip ([10, 20] : List Int)).map
          (fun p => Event.transferCall 0 p.1 p.2) ∧
      (∀ a, w'.balances a =
        w0.balances a + recvSum (([1, 2] : List Address).zip [10, 20]) a -
        (if a = 0 then ([10, 20] : List Int).sum else 0)) ∧
      ((0 : Address) ∉ ([1, 2] : List Address) →
        w'.balances 0 = w0.balances 0 - ([10, 20] : List Int).sum) ∧
      (∀ a, a ∉ ([1, 2] : List Address) → a ≠ 0 →
        w'.balances a = w0.balances a) ∧
      (([1, 2] : List Address).Nodup →
        ∀ i (hi : i < ([1, 2] : List Address).length)
          (hj : i < ([10, 20] : List Int).length),
        ([1, 2] : List Address).get ⟨i, hi⟩ ≠ 0 →
        w'.balances (([1, 2] : List Address).get ⟨i, hi⟩) =
          w0.balances (([1, 2] : List Address).get ⟨i, hi⟩) +
            ([10, 20] : List Int).get ⟨i, hj⟩) ∧
      w'.admin = w0.admin :=
  C1_batch_transfer_success_effect authAll w0 7 0 [1, 2] [10, 20]
    (by decide) (by decide) (by decide) rfl (by decide)

/-- C2, counterexample to the claim as stated: a batch containing a
non-positive amount need not fail with `NonPositiveAmount`.  With every
account holding 5, the transfer of 10 at index 0 fails with
`TransferFailure` before the `-1` at index 1 is examined; and with no
authorization granted, the call fails with `AuthFailure` before the loop
starts. -/
theorem C2_nonpositive_counterexample :
    (-1 : Int) ≤ 0 ∧
    ([1, 2] : List Address).length = ([10, -1] : List Int).length ∧
    (batch_transfer authAll w5 7 0 [1, 2] [10, -1]).1 =
      .error .TransferFailure ∧
    Err.TransferFailure ≠ Err.NonPositiveAmount ∧
    (batch_transfer authNone w0 7 0 [1, 2] [10, -1]).1 =
      .error .AuthFailure ∧
    Err.AuthFailure ≠ Err.NonPositiveAmount :=
  ⟨by decide, by decide, rfl, by decide, rfl, by decide⟩

/-- C2 (amended): For every equal-length batch containing some amount ≤ 0,
`batch_transfer` never succeeds, and (host rollback) every balance keeps its
pre-call value; moreover whenever the call passes the emptiness and length
checks, the source's authorization is granted, and every transfer before the
first offending position succeeds, the error is `NonPositiveAmount` at that
position. -/
theorem C2_nonpositive_amount_rollback
    (auth : Address → Bool) (w : World) (tok frm : Address)
    (rs : List Address) (amts : List Int)
    (hlen : rs.length = amts.length)
    (hneg : ∃ x ∈ amts, x ≤ 0) :
    resOk (batch_transfer auth w tok frm rs amts).1 = false ∧
    exec auth w (.opBatch tok frm rs amts) = w ∧
    (∀ l₁ r a l₂,
      rs.zip amts = l₁ ++ (r, a) :: l₂ →
      a ≤ 0 →
      resOk (batchLoop frm w.balances l₁).1 = true →
      auth frm = true →
      (batch_transfer auth w tok frm rs amts).1 =
        .error .NonPositiveAmount) := by
  obtain ⟨x, hx, hxle⟩ := hneg
  have hsnd : (rs.zip amts).map Prod.snd = amts :=
    List.map_snd_zip rs amts (le_of_eq hlen.symm)
  rw [← hsnd] at hx
  obtain ⟨p, hp, hpx⟩ := List.mem_map.mp hx
  have hploop :=
    batchLoop_not_ok_of_nonpos frm (rs.zip amts) w.balances
      ⟨p, hp, hpx ▸ hxle⟩
  have h1 : resOk (batch_transfer auth w tok frm rs amts).1 = false := by
    by_cases hrs : rs.length = 0
    · unfold batch_transfer
      rw [if_pos hrs]
      rfl
    · cases hab : auth frm with
      | true =>
        rw [batch_transfer_run auth w tok frm rs amts hrs hlen hab]
        cases hres : (batchLoop frm w.balances (rs.zip amts)).1 with
        | ok b =>
          rw [hres] at hploop
          exact absurd hploop (by simp [resOk])
        | error e => rfl
      | false =>
        rw [batch_transfer_noauth auth w tok frm rs amts hrs hlen hab]
        rfl
  refine ⟨h1, ?_, ?_⟩
  · cases hh : (batch_transfer auth w tok frm rs amts).1 with
    | ok w2 =>
      rw [hh] at h1
      exact absurd h1 (by simp [resOk])
    | error e => simp [exec, step, hh]
  · intro l₁ r a l₂ hsplit ha hpre hauth
    have hne0 : rs.length ≠ 0 := by
      intro h0
      rw [List.length_eq_zero.mp h0] at hsplit
      simp at hsplit
    rw [batch_transfer_run auth w tok frm rs amts hne0 hlen hauth, hsplit,
      batchLoop_nonpos_after_ok frm w.balances l₁ r a l₂ hpre ha]
    rfl

/-- Witness for C2 (amended) at the spec's example batch `[10, -1]` from a
well-funded source. -/
theorem C2_nonpositive_amount_rollback_witness :
    resOk (batch_transfer authAll w0 7 0 [1, 2] [10, -1]).1 = false ∧
    exec authAll w0 (.opBatch 7 0 [1, 2] [10, -1]) = w0 ∧
    (∀ l₁ r a l₂,
      ([1, 2] : List Address).zip ([10, -1] : List Int) =
        l₁ ++ (r, a) :: l₂ →
      a ≤ 0 →
      resOk (batchLoop 0 w0.balances l₁).1 = true →
      authAll 0 = true →
      (batch_transfer authAll w0 7 0 [1, 2] [10, -1]).1 =
        .error .NonPositiveAmount) :=
  C2_nonpositive_amount_rollback authAll w0 7 0 [1, 2] [10, -1]
    (by decide) (by decide)

/-- C8, counterexample to the claim as stated: with an empty recipient list
and a non-empty amount list the lengths differ, yet the call fails with
`EmptyBatch`, not `LengthMismatch` (the emptiness check runs first). -/
theorem C8_length_mismatch_counterexample :
    ([] : List Address).length ≠ ([1] : List Int).length ∧
    (batch_transfer authAll w0 7 0 [] [1]).1 = .error .EmptyBatch ∧
    Err.EmptyBatch ≠ Err.LengthMismatch :=
  ⟨by decide, rfl, by decide⟩

/-- C8 (amended): For every input with non-empty recipients whose length
differs from the amounts' length, `batch_transfer` fails with
`LengthMismatch`, performing no external interaction at all (no
authorization request, no transfer call), and the world is unchanged. -/
theorem C8_length_mismatch
    (auth : Address → Bool) (w : World) (tok frm : Address)
    (rs : List Address) (amts : List Int)
    (hne : rs ≠ []) (hmis : rs.length ≠ amts.length) :
    batch_transfer auth w tok frm rs amts = (.error .LengthMismatch, []) ∧
    exec auth w (.opBatch tok frm rs amts) = w := by
  have hne' : rs.length ≠ 0 := fun h0 => hne (List.length_eq_zero.mp h0)
  have h1 : batch_transfer auth w tok frm rs amts =
      (.error .LengthMismatch, []) := by
    unfold batch_transfer
    rw [if_neg hne', if_pos hmis]
  exact ⟨h1, by simp [exec, step, h1]⟩

/-- Witness for C8 (amended): two recipients, one amount. -/
theorem C8_length_mismatch_witness :
    batch_transfer authAll w0 7 0 [1, 2] [10] =
      (.error .LengthMismatch, []) ∧
    exec authAll w0 (.opBatch 7 0 [1, 2] [10]) = w0 :=
  C8_length_mismatch authAll w0 7 0 [1, 2] [10] (by decide) (by decide)

/-- C9: For every input with an empty recipients sequence, `batch_transfer`
fails with `EmptyBatch`, performing no external interaction at all (so
before requesting any authorization and before any transfer call), and the
world is unchanged. -/
theorem C9_empty_batch (auth : Address → Bool) (w : World)
    (tok frm : Address) (amts : List Int) :
    batch_transfer auth w tok frm [] amts = (.error .EmptyBatch, []) ∧
    exec auth w (.opBatch tok frm [] amts) = w :=
  ⟨rfl, rfl⟩

/-- The only errors the transfer loop can raise are `NonPositiveAmount` (its
own check) and `TransferFailure` (from the transfer capability). -/
lemma batchLoop_error_cases (frm : Address) :
    ∀ (l : List (Address × Int)) (bal : Address → Int) (e : Err),
    (batchLoop frm bal l).1 = .error e →
    e = .NonPositiveAmount ∨ e = .TransferFailure := by
  intro l
  induction l with
  | nil =>
    intro bal e h
    exact absurd h (by simp [batchLoop])
  | cons q rest ih =>
    obtain ⟨r, amt⟩ := q
    intro bal e h
    rw [batchLoop_cons] at h
    split at h
    · simp only [Except.error.injEq] at h
      exact Or.inl h.symm
    · cases htr : transfer bal frm r amt with
      | error e2 =>
        rw [htr] at h
        simp only [Except.error.injEq] at h
        unfold transfer at htr
        split at htr
        · simp only [Except.error.injEq] at htr
          exact Or.inr (by rw [← h, ← htr])
        · exact absurd htr (by simp)
      | ok bal2 =>
        rw [htr] at h
        exact ih bal2 e h

/-- A successful `batch_transfer` writes only the ledger: the stored
administrator record of the resulting world is the caller's. -/
lemma batch_transfer_ok_admin (auth : Address → Bool) (w : World)
    (tok frm : Address) (rs : List Address) (amts : List Int) (w' : World)
    (h : (batch_transfer auth w tok frm rs amts).1 = .ok w') :
    w'.admin = w.admin := by
  by_cases h0 : rs.length = 0
  · unfold batch_transfer at h
    rw [if_pos h0] at h
    exact absurd h (by simp)
  · by_cases h1 : rs.length = amts.length
    · cases hab : auth frm with
      | true =>
        rw [batch_transfer_run auth w tok frm rs amts h0 h1 hab] at h
        cases hres : (batchLoop frm w.balances (rs.zip amts)).1 with
        | error e =>
          rw [hres] at h
          exact absurd h (by simp [Except.map])
        | ok b =>
          rw [hres] at h
          simp only [Except.map, Except.ok.injEq] at h
          rw [← h]
      | false =>
        rw [batch_transfer_noauth auth w tok frm rs amts h0 h1 hab] at h
        exact absurd h (by simp)
    · unfold batch_transfer at h
      rw [if_neg h0, if_pos h1] at h
      exact absurd h (by simp)

/-- The `opAdmin` invocation never changes the world. -/
lemma exec_opAdmin_eq (auth : Address → Bool) (w : World) :
    exec auth w .opAdmin = w := by
  cases hw : w.admin <;> simp [exec, step, admin, hw, Except.map]

/-- A batch-transfer invocation, rolled back or not, keeps the stored
administrator record. -/
lemma exec_opBatch_admin (auth : Address → Bool) (w : World)
    (tok frm : Address) (rs : List Address) (amts : List Int) :
    (exec auth w (.opBatch tok frm rs amts)).admin = w.admin := by
  simp only [exec]
  cases hh : step auth w (.opBatch tok frm rs amts) with
  | ok w2 => exact batch_transfer_ok_admin auth w tok frm rs amts w2 hh
  | error e => rfl

/-- An `upgrade` invocation keeps the stored administrator record. -/
lemma exec_opUpgrade_admin (auth : Address → Bool) (w : World) (hsh : Nat) :
    (exec auth w (.opUpgrade hsh)).admin = w.admin := by
  cases hw : w.admin with
  | none => simp [exec, step, upgrade, hw]
  | some a => cases hab : auth a <;> simp [exec, step, upgrade, hw, hab]

/-- An `extend_ttl` invocation keeps the stored administrator record. -/
lemma exec_opExtendTtl_admin (auth : Address → Bool) (w : World) :
    (exec auth w .opExtendTtl).admin = w.admin := rfl

/-- Equal stored records give equal `admin()` results. -/
lemma admin_congr (w1 w2 : World) (h : w1.admin = w2.admin) :
    admin w1 = admin w2 := by
  unfold admin
  rw [h]

/-- Every invocation preserves the existence of the administrator record. -/
lemma exec_admin_isSome (auth : Address → Bool) (w : World) (op : Op)
    (h : w.admin.isSome = true) : (exec auth w op).admin.isSome = true := by
  cases op with
  | opInit a =>
    cases hw : w.admin with
    | none => rw [hw] at h; exact absurd h (by simp)
    | some b => simp [exec, step, init_contract, hw]
  | opBatch tok frm rs amts =>
    rw [exec_opBatch_admin auth w tok frm rs amts]
    exact h
  | opAdmin =>
    rw [exec_opAdmin_eq auth w]
    exact h
  | opSetAdmin n =>
    cases hw : w.admin with
    | none => simp [exec, step, set_admin, hw, hw ▸ h]
    | some a => cases hab : auth a <;> simp [exec, step, set_admin, hw, hab]
  | opUpgrade hsh =>
    rw [exec_opUpgrade_admin auth w hsh]
    exact h
  | opExtendTtl =>
    rw [exec_opExtendTtl_admin auth w]
    exact h

/-- C3: When an administrator record exists, `set_admin` succeeds only when
the current administrator authorizes the call; without that authorization it
fails with `AuthFailure` and the stored record is unchanged; when no record
exists it fails with `NotInit` (the spec's `NotInitialized`). -/
theorem C3_set_admin_requires_current_admin (auth : Address → Bool)
    (w : World) (n : Address) :
    (w.admin = none → set_admin auth w n = .error .NotInit) ∧
    (∀ a, w.admin = some a → auth a = false →
      set_admin auth w n = .error .AuthFailure ∧
      exec auth w (.opSetAdmin n) = w) ∧
    (∀ a w', w.admin = some a → set_admin auth w n = .ok w' →
      auth a = true ∧ w'.admin = some n) := by
  refine ⟨?_, ?_, ?_⟩
  · intro h
    unfold set_admin
    rw [h]
  · intro a ha hf
    have h1 : set_admin auth w n = .error .AuthFailure := by
      simp [set_admin, ha, hf]
    exact ⟨h1, by simp [exec, step, h1]⟩
  · intro a w' ha hok
    simp only [set_admin, ha] at hok
    split at hok
    · rename_i hcond
      simp only [Except.ok.injEq] at hok
      refine ⟨hcond, ?_⟩
      rw [← hok]
    · exact absurd hok (by simp)

/-- Witness for C3: with admin 1 stored and nobody authorizing, `set_admin`
fails with `AuthFailure` and the world is unchanged; uninitialized,
it fails with `NotInit`. -/
theorem C3_set_admin_requires_current_admin_witness :
    set_admin authNone wA 5 = .error .AuthFailure ∧
    exec authNone wA (.opSetAdmin 5) = wA ∧
    set_admin authAll w0 5 = .error .NotInit := by
  refine ⟨?_, ?_, ?_⟩
  · exact ((C3_set_admin_requires_current_admin authNone wA 5).2.1 1
      rfl rfl).1
  · exact ((C3_set_admin_requires_current_admin authNone wA 5).2.1 1
      rfl rfl).2
  · exact (C3_set_admin_requires_current_admin authAll w0 5).1 rfl

/-- C4: With an administrator record present, `init_contract` (the source's
`initialize`) fails with `AlreadyInit` (the spec's `AlreadyInitialized`)
regardless of its argument, and the world after the rolled-back call equals
the world before it. -/
theorem C4_second_init_fails (auth : Address → Bool) (w : World)
    (a x : Address) (h : w.admin = some a) :
    init_contract w x = .error .AlreadyInit ∧
    exec auth w (.opInit x) = w := by
  have h1 : init_contract w x = .error .AlreadyInit := by
    unfold init_contract
    rw [h]
  exact ⟨h1, by simp [exec, step, h1]⟩

/-- Witness for C4: re-initializing the already-initialized world `wA`. -/
theorem C4_second_init_fails_witness :
    init_contract wA 9 = .error .AlreadyInit ∧
    exec authAll wA (.opInit 9) = wA :=
  C4_second_init_fails authAll wA 1 9 rfl

/-- C5: `admin()` returns the stored administrator record — the value most
recently written by a successful `set_admin` or by `init_contract` — and
fails with `NotInit` (the spec's `NotInitialized`) when no record exists;
the call itself never modifies the world, and the operations that do not
write the record leave `admin()`'s result unchanged. -/
theorem C5_admin_returns_latest (auth : Address → Bool) (w : World) :
    (∀ a, w.admin = some a → admin w = .ok a) ∧
    (w.admin = none → admin w = .error .NotInit) ∧
    (∀ n w', set_admin auth w n = .ok w' → admin w' = .ok n) ∧
    (∀ x w', init_contract w x = .ok w' → admin w' = .ok x) ∧
    exec auth w .opAdmin = w ∧
    (∀ tok frm rs amts,
      admin (exec auth w (.opBatch tok frm rs amts)) = admin w) ∧
    (∀ hsh, admin (exec auth w (.opUpgrade hsh)) = admin w) ∧
    admin (exec auth w .opExtendTtl) = admin w := by
  refine ⟨?_, ?_, ?_, ?_, exec_opAdmin_eq auth w, ?_, ?_, ?_⟩
  · intro a h
    simp [admin, h]
  · intro h
    simp [admin, h]
  · intro n w' hok
    cases hw : w.admin with
    | none =>
      simp only [set_admin, hw] at hok
      exact absurd hok (by simp)
    | some a =>
      simp only [set_admin, hw] at hok
      split at hok
      · simp only [Except.ok.injEq] at hok
        rw [← hok]
        rfl
      · exact absurd hok (by simp)
  · intro x w' hok
    cases hw : w.admin with
    | none =>
      simp only [init_contract, hw, Except.ok.injEq] at hok
      rw [← hok]
      rfl
    | some a =>
      simp only [init_contract, hw] at hok
      exact absurd hok (by simp)
  · intro tok frm rs amts
    exact admin_congr _ _ (exec_opBatch_admin auth w tok frm rs amts)
  · intro hsh
    exact admin_congr _ _ (exec_opUpgrade_admin auth w hsh)
  · exact admin_congr _ _ (exec_opExtendTtl_admin auth w)

/-- Witness for C5: with admin 1 stored, `admin()` returns 1; uninitialized
it fails with `NotInit`; after `set_admin` stores 5, `admin()` returns 5;
a read of `admin()` leaves the world unchanged. -/
theorem C5_admin_returns_latest_witness :
    admin wA = .ok 1 ∧
    admin w0 = .error .NotInit ∧
    admin { wA with admin := some 5 } = .ok 5 ∧
    exec authAll wA .opAdmin = wA := by
  refine ⟨?_, ?_, ?_, ?_⟩
  · exact (C5_admin_returns_latest authAll wA).1 1 rfl
  · exact (C5_admin_returns_latest authAll w0).2.1 rfl
  · exact (C5_admin_returns_latest authAll wA).2.2.1 5
      { wA with admin := some 5 } rfl
  · exact (C5_admin_returns_latest authAll wA).2.2.2.2.1

/-- C6: Once `batch_transfer` proceeds past its emptiness and length checks,
exactly one authorization is requested, it is the source's, it precedes
every transfer-capability call of the invocation, and no further
authorization (in particular none per recipient) is ever requested. -/
theorem C6_single_source_authorization (auth : Address → Bool) (w : World)
    (tok frm : Address) (rs : List Address) (amts : List Int)
    (hne : rs ≠ []) (hlen : rs.length = amts.length) :
    ((batch_transfer auth w tok frm rs amts).2).filter isAuth =
      [.authReq frm] ∧
    (∃ tl, (batch_transfer auth w tok frm rs amts).2 =
      .authReq frm :: tl ∧ ∀ e ∈ tl, isAuth e = false) := by
  have hne' : rs.length ≠ 0 := fun h0 => hne (List.length_eq_zero.mp h0)
  cases hab : auth frm with
  | true =>
    rw [batch_transfer_run auth w tok frm rs amts hne' hlen hab]
    have hno := batchLoop_no_auth frm (rs.zip amts) w.balances
    constructor
    · have hcond : isAuth (Event.authReq frm) = true := rfl
      simp only [List.filter_cons]
      rw [if_pos hcond, List.filter_eq_nil_iff.mpr (by
        intro e he
        rw [hno e he]
        simp)]
    · exact ⟨(batchLoop frm w.balances (rs.zip amts)).2, rfl, hno⟩
  | false =>
    rw [batch_transfer_noauth auth w tok frm rs amts hne' hlen hab]
    exact ⟨rfl, [], rfl, by simp⟩

/-- Witness for C6 at the spec's example batch. -/
theorem C6_single_source_authorization_witness :
    ((batch_transfer authAll w0 7 0 [1, 2] [10, 20]).2).filter isAuth =
      [.authReq 0] ∧
    (∃ tl, (batch_transfer authAll w0 7 0 [1, 2] [10, 20]).2 =
      .authReq 0 :: tl ∧ ∀ e ∈ tl, isAuth e = false) :=
  C6_single_source_authorization authAll w0 7 0 [1, 2] [10, 20]
    (by decide) (by decide)

/-- C7: After initialization the administrator record exists in every
reachable world (over any sequence of invocations of the public surface);
the record's existence makes a further `init_contract` fail, a successful
`set_admin` always stores a record (never deletes), and every other
operation leaves the stored record untouched. -/
theorem C7_admin_record_invariant (auth : Address → Bool) (w : World)
    (ops : List Op) (h : w.admin.isSome = true) :
    (execList auth w ops).admin.isSome = true ∧
    (∀ x, init_contract w x = .error .AlreadyInit) ∧
    (∀ n w', set_admin auth w n = .ok w' → w'.admin = some n) ∧
    (∀ tok frm rs amts,
      (exec auth w (.opBatch tok frm rs amts)).admin = w.admin) ∧
    exec auth w .opAdmin = w ∧
    (∀ hsh, (exec auth w (.opUpgrade hsh)).admin = w.admin) ∧
    (exec auth w .opExtendTtl).admin = w.admin := by
  refine ⟨?_, ?_, ?_, ?_, exec_opAdmin_eq auth w, ?_, ?_⟩
  · induction ops generalizing w with
    | nil => exact h
    | cons op rest ih =>
      exact ih (exec auth w op) (exec_admin_isSome auth w op h)
  · intro x
    cases hw : w.admin with
    | none => rw [hw] at h; exact absurd h (by simp)
    | some a => simp [init_contract, hw]
  · intro n w' hok
    cases hw : w.admin with
    | none =>
      simp only [set_admin, hw] at hok
      exact absurd hok (by simp)
    | some a =>
      simp only [set_admin, hw] at hok
      split at hok
      · simp only [Except.ok.injEq] at hok
        rw [← hok]
      · exact absurd hok (by simp)
  · exact exec_opBatch_admin auth w
  · exact exec_opUpgrade_admin auth w
  · exact exec_opExtendTtl_admin auth w

/-- Witness for C7: a concrete invocation sequence starting from the
initialized world `wA` keeps the record present, and the frame facts at
concrete arguments. -/
theorem C7_admin_record_invariant_witness :
    (execList authAll wA
      [.opExtendTtl, .opBatch 7 0 [1] [5], .opSetAdmin 2, .opUpgrade 3,
        .opAdmin]).admin.isSome = true ∧
    init_contract wA 9 = .error .AlreadyInit ∧
    (exec authAll wA (.opBatch 7 0 [1] [5])).admin = wA.admin ∧
    (exec authAll wA (.opUpgrade 3)).admin = wA.admin ∧
    (exec authAll wA .opExtendTtl).admin = wA.admin := by
  have hm := C7_admin_record_invariant authAll wA
    [.opExtendTtl, .opBatch 7 0 [1] [5], .opSetAdmin 2, .opUpgrade 3,
      .opAdmin] rfl
  exact ⟨hm.1, hm.2.1 9, hm.2.2.2.1 7 0 [1] [5], hm.2.2.2.2.2.1 3,
    hm.2.2.2.2.2.2⟩

/-- C10: `batch_transfer` performs no initialization check and never touches
the administrator record: it can never fail with `NotInit` (the spec's
`NotInitialized`), it leaves the stored record exactly as it was, its
observable behaviour (external interactions, success or failure, resulting
balances) is identical whatever the record holds — including no record at
all — and a valid authorized batch whose transfers succeed succeeds in any
world. -/
theorem C10_batch_transfer_ignores_admin (auth : Address → Bool)
    (w : World) (tok frm : Address) (rs : List Address) (amts : List Int)
    (x : Option Address) :
    (∀ e, (batch_transfer auth w tok frm rs amts).1 = .error e →
      e ≠ .NotInit) ∧
    (exec auth w (.opBatch tok frm rs amts)).admin = w.admin ∧
    (batch_transfer auth { w with admin := x } tok frm rs amts).2 =
      (batch_transfer auth w tok frm rs amts).2 ∧
    (batch_transfer auth { w with admin := x } tok frm rs amts).1.map
        World.balances =
      (batch_transfer auth w tok frm rs amts).1.map World.balances ∧
    (rs ≠ [] → rs.length = amts.length → auth frm = true →
      resOk (batchLoop frm w.balances (rs.zip amts)).1 = true →
      resOk (batch_transfer auth w tok frm rs amts).1 = true) := by
  have hb : ({ w with admin := x } : World).balances = w.balances := rfl
  refine ⟨?_, exec_opBatch_admin auth w tok frm rs amts, ?_, ?_, ?_⟩
  · intro e he
    by_cases h0 : rs.length = 0
    · unfold batch_transfer at he
      rw [if_pos h0] at he
      simp only [Except.error.injEq] at he
      rw [← he]
      simp
    · by_cases h1 : rs.length = amts.length
      · cases hab : auth frm with
        | true =>
          rw [batch_transfer_run auth w tok frm rs amts h0 h1 hab] at he
          cases hres : (batchLoop frm w.balances (rs.zip amts)).1 with
          | error e2 =>
            rw [hres] at he
            simp only [Except.map, Except.error.injEq] at he
            rcases batchLoop_error_cases frm (rs.zip amts) w.balances e2
                hres with h2 | h2 <;>
              rw [← he, h2] <;> simp
          | ok b =>
            rw [hres] at he
            exact absurd he (by simp [Except.map])
        | false =>
          rw [batch_transfer_noauth auth w tok frm rs amts h0 h1 hab] at he
          simp only [Except.error.injEq] at he
          rw [← he]
          simp
      · unfold batch_transfer at he
        rw [if_neg h0, if_pos h1] at he
        simp only [Except.error.injEq] at he
        rw [← he]
        simp
  · by_cases h0 : rs.length = 0
    · simp [batch_transfer, h0]
    · by_cases h1 : rs.length = amts.length
      · cases hab : auth frm with
        | true =>
          rw [batch_transfer_run auth { w with admin := x } tok frm rs amts
              h0 h1 hab,
            batch_transfer_run auth w tok frm rs amts h0 h1 hab, hb]
        | false =>
          rw [batch_transfer_noauth auth { w with admin := x } tok frm rs
              amts h0 h1 hab,
            batch_transfer_noauth auth w tok frm rs amts h0 h1 hab]
      · simp [batch_transfer, h0, h1]
  · by_cases h0 : rs.length = 0
    · simp [batch_transfer, h0]
    · by_cases h1 : rs.length = amts.length
      · cases hab : auth frm with
        | true =>
          rw [batch_transfer_run auth { w with admin := x } tok frm rs amts
              h0 h1 hab,
            batch_transfer_run auth w tok frm rs amts h0 h1 hab, hb]
          cases hres : (batchLoop frm w.balances (rs.zip amts)).1 <;> rfl
        | false =>
          rw [batch_transfer_noauth auth { w with admin := x } tok frm rs
              amts h0 h1 hab,
            batch_transfer_noauth auth w tok frm rs amts h0 h1 hab]
      · simp [batch_transfer, h0, h1]
  · intro hne hlen hab hok
    have hne' : rs.length ≠ 0 := fun hz => hne (List.length_eq_zero.mp hz)
    rw [batch_transfer_run auth w tok frm rs amts hne' hlen hab]
    cases hres : (batchLoop frm w.balances (rs.zip amts)).1 with
    | error e =>
      rw [hres] at hok
      exact absurd hok (by simp [resOk])
    | ok b => rfl

/-- Witness for C10: in the uninitialized world `w0`, a valid authorized
batch leaves the (absent) record untouched and succeeds; the external
interactions do not depend on the record. -/
theorem C10_batch_transfer_ignores_admin_witness :
    (exec authAll w0 (.opBatch 7 0 [1, 2] [10, 20])).admin = w0.admin ∧
    (batch_transfer authAll { w0 with admin := some 3 } 7 0 [1, 2]
      [10, 20]).2 =
      (batch_transfer authAll w0 7 0 [1, 2] [10, 20]).2 ∧
    resOk (batch_transfer authAll w0 7 0 [1, 2] [10, 20]).1 = true := by
  have hm := C10_batch_transfer_ignores_admin authAll w0 7 0 [1, 2]
    [10, 20] (some 3)
  exact ⟨hm.2.1, hm.2.2.1, hm.2.2.2.2 (by decide) (by decide) rfl
    (by decide)⟩
